import Mathlib

/-!
A verification development for scripts/update_readme_from_csv.py.

The script is embedded shallowly:

* Python strings are lists of characters (Str).  Only the ASCII whitespace
  characters are modelled for strip/rstrip/lstrip, and only the ASCII digits
  for str.isdigit; the repository data never leaves ASCII.
* CSV reading is modelled on the already-parsed cell matrix: read_csv_rows
  receives the list of rows (each a list of cell strings), the first row being
  the header, exactly as csv.DictReader sees them.  DictReader behaviour is
  reproduced: the header row supplies the field names, blank rows are skipped,
  short rows are padded with the restval None (modelled as Option.none), and
  duplicate header names overwrite earlier entries.  The restkey entry for
  over-long rows is keyed by the Python object None, which no string lookup in
  the script can observe, so it is not part of the record model.
* Python dicts that the script builds are ordered association lists; values
  are Option Str, with none standing for the Python value None.
* datetime.utcnow().strftime is a clock read; build_table receives the
  formatted timestamp as an explicit argument.
* list.sort(key=..., reverse=True) is Python's stable descending sort; it is
  embedded as List.mergeSort with the comparison (key of b) <= (key of a),
  which is extensionally the unique stable descending sort.
* build_table mutates its argument list (in-place sort, key insertion); the
  embedding returns the final state of that list alongside the produced text.
* str.split(sep) is used by the script only at indices 0 and 1; pySplit0 and
  pySplit1 reproduce exactly those components (the chunk before the first
  occurrence of sep, and the chunk between the first and second occurrences).
* repr of a list of strings (used in the error message f-string) is modelled
  for names built from characters other than quote and backslash, which is
  exact Python repr on such names.
-/

namespace UpdateReadme

/-- Python strings are modelled as lists of characters. -/
abbrev Str : Type := List Char

/-- The newline character. -/
def nl : Char := '\n'

/-- The ASCII quote character, used by the Python repr of a string. -/
def quoteCh : Char := Char.ofNat 39

/-- ASCII whitespace, as recognised by str.strip and friends. -/
def isPySpace (c : Char) : Bool :=
  c == ' ' || c == '\t' || c == '\n' || c == '\r' || c == Char.ofNat 11 || c == Char.ofNat 12

/-- Python str.lstrip(): drop leading whitespace. -/
def lstripW (s : Str) : Str := s.dropWhile isPySpace

/-- Python str.rstrip(): drop trailing whitespace. -/
def rstripW (s : Str) : Str := (s.reverse.dropWhile isPySpace).reverse

/-- Python str.strip(). -/
def pyStrip (s : Str) : Str := lstripW (rstripW s)

/-- Python (s or "") on an optional string: None becomes the empty string. -/
def pyOr : Option Str → Str
  | some s => s
  | none => []

/-- Python s.replace of the pipe character by a backslash-escaped pipe. -/
def escPipes : Str → Str
  | [] => []
  | c :: r => if c == '|' then '\\' :: '|' :: escPipes r else c :: escPipes r

/-- The esc helper of the script: (s or "").replace pipes, then strip. -/
def esc (s : Option Str) : Str := pyStrip (escPipes (pyOr s))

/-- normalize_date_for_sort from the script.  The argument is the value of
r.get("Date", ""), which may be the Python None for a padded short row; the
body starts with (d or "").strip() exactly as the source does. -/
def normalize_date_for_sort (d0 : Option Str) : Str :=
  let d := pyStrip (pyOr d0)
  if d.length == 4 && d.all Char.isDigit then d ++ ("-12".toList)
  else if d.length == 7 && (d.get? 4 == some '-') && (d.take 4).all Char.isDigit
      && ((d.drop 5).take 2).all Char.isDigit then d
  else "0000-00".toList

/-- The START sentinel line of the script. -/
def START : Str := "<!-- PROJECTS_TABLE:START -->".toList

/-- The END sentinel line of the script. -/
def END : Str := "<!-- PROJECTS_TABLE:END -->".toList

/-- REQUIRED_COLS from the script. -/
def REQUIRED_COLS : List Str :=
  ["Project".toList, "Date".toList, "Tools".toList, "Tags".toList,
   "Description".toList, "Link".toList]

/-- A Python value stored in a record: a string or None. -/
abbrev PyVal : Type := Option Str

/-- A Python dict with string keys, in insertion order. -/
abbrev Record : Type := List (Str × PyVal)

/-- Python d[k] lookup, as an Option (none when the key is absent). -/
def dictGet (k : Str) : Record → Option PyVal
  | [] => none
  | p :: rest => if p.fst == k then some p.snd else dictGet k rest

/-- Python d.get(k, default). -/
def dictGetD (k : Str) (r : Record) (d : PyVal) : PyVal := (dictGet k r).getD d

/-- Python d[k] = v: overwrite in place, or append a new binding. -/
def dictSet (k : Str) (v : PyVal) : Record → Record
  | [] => [(k, v)]
  | p :: rest => if p.fst == k then (k, v) :: rest else p :: dictSet k v rest

/-- One row as csv.DictReader delivers it: dict(zip(fieldnames, row)), then
the fieldnames beyond the row length are filled with the restval None. -/
def mkRecord (cols : List Str) (row : List Str) : Record :=
  let d := (cols.zip row).foldl (fun d p => dictSet p.fst (some p.snd) d) []
  (cols.drop row.length).foldl (fun d c => dictSet c none d) d

/-- Python repr of one string, for names without quote or backslash chars. -/
def pyQuote (s : Str) : Str := quoteCh :: (s ++ [quoteCh])

/-- Python repr of a list of strings, e.g. the two lists interpolated into
the schema error message. -/
def pyReprStrList (xs : List Str) : Str :=
  '[' :: (List.intercalate (", ".toList) (xs.map pyQuote) ++ [']'])

/-- The schema error message of read_csv_rows. -/
def schemaErrMsg (missing cols : List Str) : Str :=
  ("CSV missing required columns: ".toList) ++ pyReprStrList missing
    ++ (". Found: ".toList) ++ pyReprStrList cols

/-- read_csv_rows from the script, on the parsed cell matrix.  The first row
is the DictReader header (reader.fieldnames or []); a missing required column
raises ValueError with the message modelled by schemaErrMsg; data rows are
the remaining rows, with blank rows skipped by DictReader. -/
def read_csv_rows (file : List (List Str)) : Except Str (List Record) :=
  let cols := file.headD []
  let missing := REQUIRED_COLS.filter (fun c => !(cols.contains c))
  if missing.isEmpty then
    Except.ok (((file.drop 1).filter (fun row => !row.isEmpty)).map (mkRecord cols))
  else
    Except.error (schemaErrMsg missing cols)

/-- The dict key "_sort_date" that build_table inserts. -/
def sortKeyName : Str := "_sort_date".toList

/-- The statement r["_sort_date"] = normalize_date_for_sort(r.get("Date", ""))
executed for one record. -/
def addSortDate (r : Record) : Record :=
  dictSet sortKeyName (some (normalize_date_for_sort (dictGetD ("Date".toList) r (some [])))) r

/-- The sort key lambda x: x["_sort_date"] (always a string at call time). -/
def keyOf (r : Record) : Str := pyOr (dictGetD sortKeyName r none)

/-- Python string comparison (lexicographic by code point), as a Boolean
less-or-equal test. -/
def strLe : Str → Str → Bool
  | [], _ => true
  | _ :: _, [] => false
  | a :: as, b :: bs => if a < b then true else if b < a then false else strLe as bs

/-- The comparison realised by rows.sort(key=lambda x: x["_sort_date"],
reverse=True): a sorts no later than b when key b <= key a, and the sort is
stable. -/
def rowLe (a b : Record) : Bool := strLe (keyOf b) (keyOf a)

/-- The in-place stable descending sort of the records. -/
def sortRowsDesc (rs : List Record) : List Record := rs.mergeSort rowLe

/-- The header string of build_table (one Python string with a newline). -/
def tableHeader : Str :=
  "| Project | Date | Tools | Tags | Description |\n|---|---|---|---|---|".toList

/-- The row rendering of the loop body of build_table. -/
def renderRow (r : Record) : Str :=
  let name := esc (dictGetD ("Project".toList) r (some []))
  let link := esc (dictGetD ("Link".toList) r (some []))
  let date := esc (dictGetD ("Date".toList) r (some []))
  let tools := esc (dictGetD ("Tools".toList) r (some []))
  let tags := esc (dictGetD ("Tags".toList) r (some []))
  let desc := esc (dictGetD ("Description".toList) r (some []))
  let project_md :=
    if !link.isEmpty then ("**[".toList) ++ name ++ ("](".toList) ++ link ++ (")**".toList)
    else ("**".toList) ++ name ++ ("**".toList)
  ("| ".toList) ++ project_md ++ (" | ".toList) ++ date ++ (" | ".toList) ++ tools
    ++ (" | ".toList) ++ tags ++ (" | ".toList) ++ desc ++ (" |".toList)

/-- The footer line of build_table; now is the strftime "%Y-%m-%d %H:%M UTC"
result of the clock read. -/
def footerLine (now : Str) : Str := ("_Last updated: ".toList) ++ now ++ "_".toList

/-- build_table from the script.  The first component is the final state of
the caller's rows list (the script sorts it in place and mutates each record);
the second component is the returned text "\n".join(lines). -/
def build_table (rows : List Record) (now : Str) : List Record × Str :=
  let sorted := sortRowsDesc (rows.map addSortDate)
  (sorted, List.intercalate [nl] (tableHeader :: (sorted.map renderRow ++ [footerLine now])))

/-- Python (sep in t), the substring test. -/
def containsSub (sep : Str) : Str → Bool
  | [] => sep.isPrefixOf ([] : Str)
  | c :: rest => sep.isPrefixOf (c :: rest) || containsSub sep rest

/-- Locate the first occurrence of sep: the text before it and the text after
it, or none when sep does not occur. -/
def splitFirst (sep : Str) : Str → Option (Str × Str)
  | [] => if sep.isPrefixOf ([] : Str) then some ([], []) else none
  | c :: rest =>
    if sep.isPrefixOf (c :: rest) then some ([], (c :: rest).drop sep.length)
    else
      match splitFirst sep rest with
      | some pq => some (c :: pq.fst, pq.snd)
      | none => none

/-- Python t.split(sep)[0]: the text before the first occurrence of sep
(the whole of t when sep does not occur). -/
def pySplit0 (sep t : Str) : Str :=
  match splitFirst sep t with
  | some pq => pq.fst
  | none => t

/-- Python t.split(sep)[1], defined when sep occurs in t (as the guard in the
script ensures): the text between the first occurrence of sep and the next
occurrence (or the end of t). -/
def pySplit1 (sep t : Str) : Str :=
  match splitFirst sep t with
  | some pq => pySplit0 sep pq.snd
  | none => []

/-- insert_between_markers from the script. -/
def insert_between_markers (readme_text block start_marker end_marker : Str) : Str :=
  let sec := start_marker ++ [nl] ++ block ++ [nl] ++ end_marker
  if containsSub start_marker readme_text && containsSub end_marker readme_text then
    rstripW (pySplit0 start_marker readme_text) ++ sec
      ++ lstripW (pySplit1 end_marker readme_text)
  else
    let rt :=
      if !readme_text.isEmpty && !([nl, nl].isSuffixOf readme_text) then readme_text ++ [nl]
      else readme_text
    rt ++ [nl] ++ sec ++ [nl]

/-- The write decision at the end of main: write exactly when the spliced
text differs from the present text. -/
def readme_changed (readme_text block : Str) : Bool :=
  !(insert_between_markers readme_text block START END == readme_text)

/-- The number of indices at which sep occurs in the text. -/
def countOcc (sep : Str) : Str → Nat
  | [] => if sep.isPrefixOf ([] : Str) then 1 else 0
  | c :: rest => (if sep.isPrefixOf (c :: rest) then 1 else 0) + countOcc sep rest

/-- Python t.split on a newline: the list of lines of the text. -/
def splitLinesNl : Str → List Str
  | [] => [[]]
  | c :: rest =>
    if c == nl then [] :: splitLinesNl rest
    else
      match splitLinesNl rest with
      | s :: ls => (c :: s) :: ls
      | [] => [[c]]

/-- No shift of sep by 0 < k < length matches sep itself: occurrences of sep
cannot overlap. -/
def selfOverlapFree (sep : Str) : Bool :=
  (List.range sep.length).all (fun k => k == 0 || !((sep.drop k).isPrefixOf sep))

/-- No nonempty suffix of x is a prefix of sep: an occurrence of sep in a
compound text cannot begin inside x and continue past its end. -/
def suffixBlocks (x sep : Str) : Bool :=
  (List.range x.length).all (fun i => !((x.drop i).isPrefixOf sep))

instance {e a : Type} [DecidableEq e] [DecidableEq a] : DecidableEq (Except e a) :=
  fun x y =>
    match x, y with
    | Except.ok u, Except.ok v => decidable_of_iff (u = v) (by simp)
    | Except.error u, Except.error v => decidable_of_iff (u = v) (by simp)
    | Except.ok _, Except.error _ => isFalse (by simp)
    | Except.error _, Except.ok _ => isFalse (by simp)

/-! ### Substring theory for the marker splicer -/

theorem isPre_iff {l₁ l₂ : Str} : l₁.isPrefixOf l₂ = true ↔ l₁ <+: l₂ :=
  List.isPrefixOf_iff_prefix

theorem infix_of_pre {l₁ l₂ : Str} (h : l₁ <+: l₂) : l₁ <:+: l₂ :=
  List.IsPrefix.isInfix h

theorem infix_of_suf {l₁ l₂ : Str} (h : l₁ <:+ l₂) : l₁ <:+: l₂ :=
  List.IsSuffix.isInfix h

theorem containsSub_infix_iff {sep t : Str} : containsSub sep t = true ↔ sep <:+: t := by
  induction t with
  | nil =>
    simp only [containsSub, isPre_iff, List.infix_nil]
    exact ⟨fun h => List.prefix_nil.mp h, fun h => h ▸ List.prefix_refl []⟩
  | cons c rest ih =>
    simp only [containsSub, Bool.or_eq_true, isPre_iff, ih, List.infix_cons_iff]

theorem containsSub_of_pre {sep t : Str} (h : sep <+: t) : containsSub sep t = true :=
  containsSub_infix_iff.mpr (infix_of_pre h)

theorem containsSub_false_of_infix {sep t u : Str} (h : t <:+: u)
    (hu : containsSub sep u = false) : containsSub sep t = false := by
  cases hc : containsSub sep t with
  | false => rfl
  | true =>
    have : containsSub sep u = true :=
      containsSub_infix_iff.mpr ((containsSub_infix_iff.mp hc).trans h)
    rw [this] at hu
    cases hu

theorem containsSub_eq_isSome {sep t : Str} : containsSub sep t = (splitFirst sep t).isSome := by
  induction t with
  | nil =>
    cases h : sep.isPrefixOf ([] : Str) <;> simp [containsSub, splitFirst, h]
  | cons c rest ih =>
    cases h : sep.isPrefixOf (c :: rest) with
    | true => simp [containsSub, splitFirst, h]
    | false =>
      cases hs : splitFirst sep rest with
      | none => simp [containsSub, splitFirst, h, ih, hs]
      | some pq => simp [containsSub, splitFirst, h, ih, hs]

theorem splitFirst_eq_none {sep t : Str} (h : containsSub sep t = false) :
    splitFirst sep t = none := by
  rw [containsSub_eq_isSome] at h
  exact Option.not_isSome_iff_eq_none.mp (by simp [h])

/-- An occurrence of sep straddling the boundary of x ++ y would consist of a
nonempty proper prefix of sep that is a suffix of x, continued by the rest of
sep as a prefix of y.  StraddleFree rules this out. -/
def StraddleFree (sep x y : Str) : Prop :=
  ∀ z : Str, z <:+ x → z ≠ [] → z.length < sep.length → z <+: sep →
    ¬((sep.drop z.length) <+: y)

theorem isPre_false_iff {l₁ l₂ : Str} : l₁.isPrefixOf l₂ = false ↔ ¬(l₁ <+: l₂) := by
  constructor
  · intro h hp
    rw [isPre_iff.mpr hp] at h
    exact Bool.noConfusion h
  · intro h
    cases hb : l₁.isPrefixOf l₂ with
    | false => rfl
    | true => exact absurd (isPre_iff.mp hb) h

theorem straddleFree_of_head {sep y : Str} (x : Str) (g : Char) (hY : y.head? = some g)
    (hg : g ∉ sep.tail) : StraddleFree sep x y := by
  intro z _ hne hlen hpre hdrop
  obtain ⟨w, hw⟩ := hdrop
  have hdne : sep.drop z.length ≠ [] := by
    intro hnil
    rw [List.drop_eq_nil_iff] at hnil
    omega
  have hhead : (sep.drop z.length).head? = some g := by
    have hy : y = sep.drop z.length ++ w := hw.symm
    rw [hy, List.head?_append] at hY
    cases hd : (sep.drop z.length).head? with
    | none => exact absurd (List.head?_eq_none_iff.mp hd) hdne
    | some u =>
      rw [hd] at hY
      simpa using hY
  have hget : sep.get? z.length = some g := by
    have h0 : (sep.drop z.length).get? 0 = some g := by
      cases hd : sep.drop z.length with
      | nil => exact absurd hd hdne
      | cons d ds =>
        rw [hd] at hhead
        simpa using hhead
    rw [List.get?_drop] at h0
    simpa using h0
  have hz1 : 1 ≤ z.length := by
    cases z with
    | nil => exact absurd rfl hne
    | cons _ _ => simp
  have hmem : g ∈ sep.tail := by
    have h1 : (sep.drop 1).get? (z.length - 1) = some g := by
      rw [List.get?_drop]
      have h2 : 1 + (z.length - 1) = z.length := by omega
      rw [h2]
      exact hget
    rw [List.drop_one] at h1
    exact List.get?_mem h1
  exact hg hmem

theorem straddleFree_of_getLast {sep x : Str} (y : Str) (g : Char) (hX : x.getLast? = some g)
    (hg : g ∉ sep) : StraddleFree sep x y := by
  intro z hz hne _ hpre _
  obtain ⟨w, hw⟩ := hz
  have hzl : z.getLast? = some g := by
    rw [← hw] at hX
    rw [List.getLast?_append] at hX
    cases hzg : z.getLast? with
    | none => exact absurd (List.getLast?_eq_none_iff.mp hzg) hne
    | some u =>
      rw [hzg] at hX
      simpa using hX
  have hmo : g ∈ z.getLast? := by
    rw [hzl]
    rfl
  obtain ⟨hne2, hg2⟩ := List.mem_getLast?_eq_getLast hmo
  have hgz : g ∈ z := by
    rw [hg2]
    exact List.getLast_mem hne2
  exact hg (List.IsPrefix.subset hpre hgz)

theorem straddleFree_of_suffixBlocks {sep x : Str} (y : Str)
    (h : suffixBlocks x sep = true) : StraddleFree sep x y := by
  intro z hz hne _ hpre _
  obtain ⟨w, hw⟩ := hz
  have hwlt : w.length < x.length := by
    have hlen := congrArg List.length hw
    simp only [List.length_append] at hlen
    cases z with
    | nil => exact absurd rfl hne
    | cons _ _ =>
      simp only [List.length_cons] at hlen
      omega
  have hdrop : x.drop w.length = z := by
    rw [← hw, List.drop_left]
  have hbl := List.all_eq_true.mp h w.length (List.mem_range.mpr hwlt)
  simp only [Bool.not_eq_true', hdrop] at hbl
  exact absurd hpre (isPre_false_iff.mp hbl)

theorem countOcc_append {sep : Str} (x y : Str) (hsep : sep ≠ [])
    (hstr : StraddleFree sep x y) :
    countOcc sep (x ++ y) = countOcc sep x + countOcc sep y := by
  induction x with
  | nil =>
    obtain ⟨s, ss, rfl⟩ := List.exists_cons_of_ne_nil hsep
    simp [countOcc, List.isPrefixOf]
  | cons a x ih =>
    have hstr' : StraddleFree sep x y := by
      intro z hz hne hlen hpre
      exact hstr z (hz.trans (List.suffix_cons a x)) hne hlen hpre
    have hone : sep.isPrefixOf (a :: x ++ y) = sep.isPrefixOf (a :: x) := by
      rcases le_or_lt sep.length (a :: x).length with hle | hlt
      · rw [Bool.eq_iff_iff, isPre_iff, isPre_iff]
        constructor
        · intro hp
          exact List.prefix_of_prefix_length_le hp (List.prefix_append (a :: x) y) hle
        · intro hp
          exact hp.trans (List.prefix_append (a :: x) y)
      · have hr : sep.isPrefixOf (a :: x) = false := by
          cases hq : sep.isPrefixOf (a :: x) with
          | false => rfl
          | true =>
            have := List.IsPrefix.length_le (isPre_iff.mp hq)
            omega
        rw [hr]
        cases hq : sep.isPrefixOf (a :: x ++ y) with
        | false => rfl
        | true =>
          exfalso
          have hp : sep <+: (a :: x) ++ y := by
            rw [isPre_iff] at hq
            simpa using hq
          have hzp : (a :: x) <+: sep :=
            List.prefix_of_prefix_length_le (List.prefix_append (a :: x) y) hp (le_of_lt hlt)
          have hzt : a :: x = sep.take (a :: x).length := List.prefix_iff_eq_take.mp hzp
          have hsplit : (a :: x) ++ sep.drop (a :: x).length = sep := by
            conv_rhs => rw [← List.take_append_drop (a :: x).length sep]
            rw [← hzt]
          have hdp : sep.drop (a :: x).length <+: y :=
            (List.prefix_append_right_inj (a :: x)).mp (by rw [hsplit]; exact hp)
          exact hstr (a :: x) (List.suffix_refl _) (by simp) hlt hzp hdp
    calc countOcc sep (a :: x ++ y)
        = (if sep.isPrefixOf (a :: x ++ y) then 1 else 0) + countOcc sep (x ++ y) := rfl
      _ = (if sep.isPrefixOf (a :: x) then 1 else 0) + (countOcc sep x + countOcc sep y) := by
          rw [hone, ih hstr']
      _ = countOcc sep (a :: x) + countOcc sep y := by
          show _ = (if sep.isPrefixOf (a :: x) then 1 else 0) + countOcc sep x + countOcc sep y
          omega

theorem countOcc_eq_zero_iff {sep t : Str} (hsep : sep ≠ []) :
    countOcc sep t = 0 ↔ containsSub sep t = false := by
  induction t with
  | nil =>
    obtain ⟨s, ss, rfl⟩ := List.exists_cons_of_ne_nil hsep
    simp [countOcc, containsSub, List.isPrefixOf]
  | cons c rest ih =>
    cases h : sep.isPrefixOf (c :: rest) with
    | true => simp [countOcc, containsSub, h]
    | false => simp [countOcc, containsSub, h, ih]

theorem containsSub_append_false {sep : Str} (x y : Str) (hsep : sep ≠ [])
    (hx : containsSub sep x = false) (hy : containsSub sep y = false)
    (hstr : StraddleFree sep x y) : containsSub sep (x ++ y) = false := by
  rw [← countOcc_eq_zero_iff hsep] at hx hy ⊢
  rw [countOcc_append x y hsep hstr, hx, hy]

theorem splitFirst_append {sep : Str} (x rest : Str) (hsep : sep ≠ [])
    (hso : selfOverlapFree sep = true) (hx : containsSub sep x = false) :
    splitFirst sep (x ++ (sep ++ rest)) = some (x, rest) := by
  induction x with
  | nil =>
    obtain ⟨s, ss, hss⟩ := List.exists_cons_of_ne_nil hsep
    have hpre : sep.isPrefixOf (sep ++ rest) = true := isPre_iff.mpr (List.prefix_append sep rest)
    have hdrop : (sep ++ rest).drop sep.length = rest := List.drop_left sep rest
    have hform : sep ++ rest = s :: (ss ++ rest) := by rw [hss, List.cons_append]
    rw [List.nil_append, hform]
    simp only [splitFirst]
    rw [← hform, hpre]
    simp only [if_true]
    rw [hdrop]
  | cons a x ih =>
    have hx' : containsSub sep x = false := by
      rw [containsSub] at hx
      exact (Bool.or_eq_false_iff.mp hx).2
    have hguard : sep.isPrefixOf (a :: (x ++ (sep ++ rest))) = false := by
      cases hq : sep.isPrefixOf (a :: (x ++ (sep ++ rest))) with
      | false => rfl
      | true =>
        exfalso
        have hp : sep <+: (a :: x) ++ (sep ++ rest) := by
          have := isPre_iff.mp hq
          simpa using this
        rcases le_or_lt sep.length (a :: x).length with hle | hlt
        · have hpz : sep <+: a :: x :=
            List.prefix_of_prefix_length_le hp (List.prefix_append (a :: x) (sep ++ rest)) hle
          have hc : containsSub sep (a :: x) = true := containsSub_of_pre hpz
          rw [hc] at hx
          exact Bool.noConfusion hx
        · have hzp : (a :: x) <+: sep :=
            List.prefix_of_prefix_length_le (List.prefix_append (a :: x) (sep ++ rest)) hp
              (le_of_lt hlt)
          have hzt : a :: x = sep.take (a :: x).length := List.prefix_iff_eq_take.mp hzp
          have hsplit : (a :: x) ++ sep.drop (a :: x).length = sep := by
            conv_rhs => rw [← List.take_append_drop (a :: x).length sep]
            rw [← hzt]
          have hdp : sep.drop (a :: x).length <+: sep ++ rest :=
            (List.prefix_append_right_inj (a :: x)).mp (by rw [hsplit]; exact hp)
          have hdps : sep.drop (a :: x).length <+: sep :=
            List.prefix_of_prefix_length_le hdp (List.prefix_append sep rest)
              (by simp)
          have hbl := List.all_eq_true.mp hso (a :: x).length (List.mem_range.mpr hlt)
          have hk0 : ((a :: x).length == 0) = false := by simp
          rw [hk0, Bool.false_or, Bool.not_eq_true'] at hbl
          exact absurd hdps (isPre_false_iff.mp hbl)
    have hrec := ih hx'
    show splitFirst sep (a :: (x ++ (sep ++ rest))) = some (a :: x, rest)
    simp only [splitFirst]
    rw [hguard]
    simp only [Bool.false_eq_true, if_false]
    rw [hrec]

/-! ### Strip lemmas -/

theorem lstripW_suffix (s : Str) : lstripW s <:+ s := List.dropWhile_suffix isPySpace

theorem rstripW_pre (s : Str) : rstripW s <+: s := by
  have h2 : (rstripW s).reverse <:+ s.reverse := by
    rw [rstripW, List.reverse_reverse]
    exact List.dropWhile_suffix isPySpace
  exact List.reverse_suffix.mp h2

theorem lstripW_idem (s : Str) : lstripW (lstripW s) = lstripW s :=
  List.dropWhile_idempotent isPySpace s

theorem rstripW_idem (s : Str) : rstripW (rstripW s) = rstripW s := by
  rw [rstripW, rstripW, List.reverse_reverse, List.dropWhile_idempotent]

theorem containsSub_false_rstrip {sep s : Str} (h : containsSub sep s = false) :
    containsSub sep (rstripW s) = false :=
  containsSub_false_of_infix (infix_of_pre (rstripW_pre s)) h

theorem containsSub_false_lstrip {sep s : Str} (h : containsSub sep s = false) :
    containsSub sep (lstripW s) = false :=
  containsSub_false_of_infix (infix_of_suf (lstripW_suffix s)) h

/-! ### The two branches of insert_between_markers in closed form -/

/-- The section string built by insert_between_markers. -/
def markedSection (block : Str) : Str := START ++ [nl] ++ block ++ [nl] ++ END

theorem insert_both_eq (a b c block : Str)
    (h1 : containsSub START a = false) (h2 : containsSub END a = false)
    (h3 : containsSub END b = false) (h4 : containsSub END c = false) :
    insert_between_markers (a ++ START ++ b ++ END ++ c) block START END
      = rstripW a ++ markedSection block ++ lstripW c := by
  have hSne : START ≠ [] := by decide
  have hEne : END ≠ [] := by decide
  have hsoS : selfOverlapFree START = true := by decide
  have hsoE : selfOverlapFree END = true := by decide
  have ha1 : a ++ START ++ b ++ END ++ c = a ++ (START ++ (b ++ (END ++ c))) := by
    simp only [List.append_assoc]
  have hs : splitFirst START (a ++ START ++ b ++ END ++ c) = some (a, b ++ (END ++ c)) := by
    rw [ha1]
    exact splitFirst_append a (b ++ (END ++ c)) hSne hsoS h1
  have hSb : containsSub END (START ++ b) = false :=
    containsSub_append_false START b hEne (by decide) h3
      (straddleFree_of_suffixBlocks b (by decide))
  have hhead : (START ++ b).head? = some '<' := by
    rw [List.head?_append]
    rfl
  have haSb : containsSub END (a ++ (START ++ b)) = false :=
    containsSub_append_false a (START ++ b) hEne h2 hSb
      (straddleFree_of_head a '<' hhead (by decide))
  have ha2 : a ++ START ++ b ++ END ++ c = (a ++ (START ++ b)) ++ (END ++ c) := by
    simp only [List.append_assoc]
  have he : splitFirst END (a ++ START ++ b ++ END ++ c) = some (a ++ (START ++ b), c) := by
    rw [ha2]
    exact splitFirst_append (a ++ (START ++ b)) c hEne hsoE haSb
  have hcS : containsSub START (a ++ START ++ b ++ END ++ c) = true := by
    rw [containsSub_eq_isSome, hs]
    rfl
  have hcE : containsSub END (a ++ START ++ b ++ END ++ c) = true := by
    rw [containsSub_eq_isSome, he]
    rfl
  have hn : splitFirst END c = none := splitFirst_eq_none h4
  have hp0 : pySplit0 START (a ++ START ++ b ++ END ++ c) = a := by
    simp only [pySplit0, hs]
  have hp1 : pySplit1 END (a ++ START ++ b ++ END ++ c) = c := by
    simp only [pySplit1, he, pySplit0, hn]
  simp only [insert_between_markers, hcS, hcE, Bool.and_self, if_true, hp0, hp1, markedSection]

theorem insert_missing_eq (t block : Str)
    (hmiss : containsSub START t = false ∨ containsSub END t = false) :
    insert_between_markers t block START END
      = (if !t.isEmpty && !([nl, nl].isSuffixOf t) then t ++ [nl] else t)
        ++ [nl] ++ markedSection block ++ [nl] := by
  have hguard : (containsSub START t && containsSub END t) = false := by
    rcases hmiss with h | h <;> simp [h]
  simp only [insert_between_markers, hguard, Bool.false_eq_true, if_false, markedSection]

/-! ### Occurrence counting around a spliced section -/

theorem straddleFree_self (sep y : Str) (hso : selfOverlapFree sep = true) :
    StraddleFree sep sep y := by
  intro z hz hne hlen hpre _
  obtain ⟨w, hw⟩ := hz
  have hlw : w.length + z.length = sep.length := by
    have h := congrArg List.length hw
    rw [List.length_append] at h
    exact h
  have hz1 : 1 ≤ z.length := by
    cases z with
    | nil => exact absurd rfl hne
    | cons _ _ => simp
  have hw1 : 1 ≤ w.length := by omega
  have hwlt : w.length < sep.length := by omega
  have hdrop : sep.drop w.length = z := by
    rw [← hw, List.drop_left]
  have hbl := List.all_eq_true.mp hso w.length (List.mem_range.mpr hwlt)
  have hk0 : (w.length == 0) = false := by
    have : w.length ≠ 0 := by omega
    simpa using this
  rw [hk0, Bool.false_or, Bool.not_eq_true', hdrop] at hbl
  exact absurd hpre (isPre_false_iff.mp hbl)

theorem countOcc_zero {sep t : Str} (hsep : sep ≠ []) (h : containsSub sep t = false) :
    countOcc sep t = 0 := (countOcc_eq_zero_iff hsep).mpr h

theorem countOcc_splice_START (A B C : Str) (hA : containsSub START A = false)
    (hB : containsSub START B = false) (hC : containsSub START C = false) :
    countOcc START (A ++ markedSection B ++ C) = 1 := by
  have hSne : START ≠ [] := by decide
  have hshape : A ++ markedSection B ++ C
      = A ++ (START ++ ([nl] ++ (B ++ ([nl] ++ (END ++ C))))) := by
    simp [markedSection, List.append_assoc]
  rw [hshape]
  have h6 : countOcc START (END ++ C) = 0 := by
    rw [countOcc_append END C hSne (straddleFree_of_suffixBlocks C (by decide))]
    rw [countOcc_zero hSne (by decide), countOcc_zero hSne hC]
  have h5 : countOcc START ([nl] ++ (END ++ C)) = 0 := by
    rw [countOcc_append [nl] (END ++ C) hSne (straddleFree_of_suffixBlocks _ (by decide))]
    rw [countOcc_zero hSne (by decide), h6]
  have h4 : countOcc START (B ++ ([nl] ++ (END ++ C))) = 0 := by
    rw [countOcc_append B ([nl] ++ (END ++ C)) hSne
      (straddleFree_of_head B nl rfl (by decide))]
    rw [countOcc_zero hSne hB, h5]
  have h3 : countOcc START ([nl] ++ (B ++ ([nl] ++ (END ++ C)))) = 0 := by
    rw [countOcc_append [nl] _ hSne (straddleFree_of_suffixBlocks _ (by decide))]
    rw [countOcc_zero hSne (by decide), h4]
  have h2 : countOcc START (START ++ ([nl] ++ (B ++ ([nl] ++ (END ++ C))))) = 1 := by
    rw [countOcc_append START _ hSne (straddleFree_self START _ (by decide))]
    rw [h3]
    decide
  rw [countOcc_append A _ hSne (straddleFree_of_head A '<' (by rw [List.head?_append]; rfl) (by decide))]
  rw [countOcc_zero hSne hA, h2]

theorem countOcc_splice_END (A B C : Str) (hA : containsSub END A = false)
    (hB : containsSub END B = false) (hC : containsSub END C = false) :
    countOcc END (A ++ markedSection B ++ C) = 1 := by
  have hEne : END ≠ [] := by decide
  have hshape : A ++ markedSection B ++ C
      = A ++ (START ++ ([nl] ++ (B ++ ([nl] ++ (END ++ C))))) := by
    simp [markedSection, List.append_assoc]
  rw [hshape]
  have h6 : countOcc END (END ++ C) = 1 := by
    rw [countOcc_append END C hEne (straddleFree_self END C (by decide))]
    rw [countOcc_zero hEne hC]
    decide
  have h5 : countOcc END ([nl] ++ (END ++ C)) = 1 := by
    rw [countOcc_append [nl] (END ++ C) hEne (straddleFree_of_suffixBlocks _ (by decide))]
    rw [countOcc_zero hEne (by decide), h6]
  have h4 : countOcc END (B ++ ([nl] ++ (END ++ C))) = 1 := by
    rw [countOcc_append B ([nl] ++ (END ++ C)) hEne
      (straddleFree_of_head B nl rfl (by decide))]
    rw [countOcc_zero hEne hB, h5]
  have h3 : countOcc END ([nl] ++ (B ++ ([nl] ++ (END ++ C)))) = 1 := by
    rw [countOcc_append [nl] _ hEne (straddleFree_of_suffixBlocks _ (by decide))]
    rw [countOcc_zero hEne (by decide), h4]
  have h2 : countOcc END (START ++ ([nl] ++ (B ++ ([nl] ++ (END ++ C))))) = 1 := by
    rw [countOcc_append START _ hEne (straddleFree_of_suffixBlocks _ (by decide))]
    rw [countOcc_zero hEne (by decide), h3]
  rw [countOcc_append A _ hEne (straddleFree_of_head A '<' (by rw [List.head?_append]; rfl) (by decide))]
  rw [countOcc_zero hEne hA, h2]

/-! ### Idempotence of the splice on a well-formed document -/

theorem contains_middle_false {block : Str} (hb : containsSub END block = false) :
    containsSub END ([nl] ++ block ++ [nl]) = false := by
  have hEne : END ≠ [] := by decide
  have e1 : containsSub END (block ++ [nl]) = false :=
    containsSub_append_false block [nl] hEne hb (by decide)
      (straddleFree_of_head block nl rfl (by decide))
  have e2 : containsSub END ([nl] ++ (block ++ [nl])) = false :=
    containsSub_append_false [nl] (block ++ [nl]) hEne (by decide) e1
      (straddleFree_of_suffixBlocks _ (by decide))
  simpa [List.append_assoc] using e2

theorem insert_idem_both (a b c block : Str)
    (h1 : containsSub START a = false) (h2 : containsSub END a = false)
    (h3 : containsSub END b = false) (h4 : containsSub END c = false)
    (hb2 : containsSub END block = false) :
    insert_between_markers
        (insert_between_markers (a ++ START ++ b ++ END ++ c) block START END)
        block START END
      = insert_between_markers (a ++ START ++ b ++ END ++ c) block START END := by
  rw [insert_both_eq a b c block h1 h2 h3 h4]
  have hshape : rstripW a ++ markedSection block ++ lstripW c
      = rstripW a ++ START ++ ([nl] ++ block ++ [nl]) ++ END ++ lstripW c := by
    simp [markedSection, List.append_assoc]
  rw [hshape]
  rw [insert_both_eq (rstripW a) ([nl] ++ block ++ [nl]) (lstripW c) block
    (containsSub_false_rstrip h1) (containsSub_false_rstrip h2)
    (contains_middle_false hb2) (containsSub_false_lstrip h4)]
  rw [rstripW_idem, lstripW_idem]
  rw [← hshape]

/-! ### The stable descending sort -/

theorem strLe_refl (s : Str) : strLe s s = true := by
  induction s with
  | nil => rfl
  | cons a as ih =>
    show strLe (a :: as) (a :: as) = true
    simp only [strLe, if_neg (lt_irrefl a)]
    exact ih

theorem strLe_total (a b : Str) : (strLe a b || strLe b a) = true := by
  induction a generalizing b with
  | nil => simp [strLe]
  | cons x xs ih =>
    cases b with
    | nil => simp [strLe]
    | cons y ys =>
      rcases lt_trichotomy x y with h | h | h
      · simp [strLe, h]
      · subst h
        simp only [strLe, if_neg (lt_irrefl x)]
        exact ih ys
      · simp [strLe, h, asymm h]

theorem strLe_trans {a b c : Str} (h1 : strLe a b = true) (h2 : strLe b c = true) :
    strLe a c = true := by
  induction a generalizing b c with
  | nil => simp [strLe]
  | cons x xs ih =>
    cases b with
    | nil => simp [strLe] at h1
    | cons y ys =>
      cases c with
      | nil => simp [strLe] at h2
      | cons z zs =>
        simp only [strLe] at h1 h2 ⊢
        rcases lt_trichotomy x y with hxy | hxy | hxy
        · rcases lt_trichotomy y z with hyz | hyz | hyz
          · rw [if_pos (lt_trans hxy hyz)]
          · subst hyz
            rw [if_pos hxy]
          · rw [if_neg (asymm hyz), if_pos hyz] at h2
            exact absurd h2 (by simp)
        · subst hxy
          rw [if_neg (lt_irrefl x)] at h1
          rcases lt_trichotomy x z with hxz | hxz | hxz
          · rw [if_pos hxz]
          · subst hxz
            rw [if_neg (lt_irrefl x), if_neg (lt_irrefl x)] at h2 ⊢
            rw [if_neg (lt_irrefl x)] at h1
            exact ih h1 h2
          · rw [if_neg (asymm hxz), if_pos hxz] at h2
            exact absurd h2 (by simp)
        · rw [if_neg (asymm hxy), if_pos hxy] at h1
          exact absurd h1 (by simp)

theorem rowLe_trans (a b c : Record) (h1 : rowLe a b = true) (h2 : rowLe b c = true) :
    rowLe a c = true := strLe_trans h2 h1

theorem rowLe_total (a b : Record) : (rowLe a b || rowLe b a) = true := by
  rw [rowLe, rowLe, Bool.or_comm]
  exact strLe_total (keyOf a) (keyOf b)

theorem sortRowsDesc_perm (rs : List Record) : (sortRowsDesc rs).Perm rs :=
  List.mergeSort_perm rs rowLe

theorem sortRowsDesc_sorted (rs : List Record) :
    (sortRowsDesc rs).Pairwise (fun a b => rowLe a b = true) :=
  List.sorted_mergeSort rowLe_trans rowLe_total rs

theorem sortRowsDesc_filter_key (rs : List Record) (K : Str) :
    (sortRowsDesc rs).filter (fun r => keyOf r == K)
      = rs.filter (fun r => keyOf r == K) := by
  have hpair : (rs.filter (fun r => keyOf r == K)).Pairwise (fun a b => rowLe a b = true) := by
    apply List.pairwise_of_forall_mem_list
    intro a ha b hb
    have hA : keyOf a = K := eq_of_beq (List.mem_filter.mp ha).2
    have hB : keyOf b = K := eq_of_beq (List.mem_filter.mp hb).2
    rw [rowLe, hA, hB]
    exact strLe_refl K
  have hsub : List.Sublist (rs.filter (fun r => keyOf r == K)) (sortRowsDesc rs) :=
    List.sublist_mergeSort rowLe_trans rowLe_total hpair (List.filter_sublist rs)
  have hfix : (rs.filter (fun r => keyOf r == K)).filter (fun r => keyOf r == K)
      = rs.filter (fun r => keyOf r == K) := by
    rw [List.filter_eq_self]
    intro a ha
    exact (List.mem_filter.mp ha).2
  have hsub2 : List.Sublist (rs.filter (fun r => keyOf r == K))
      ((sortRowsDesc rs).filter (fun r => keyOf r == K)) := by
    rw [← hfix]
    exact List.Sublist.filter _ hsub
  have hlen : ((sortRowsDesc rs).filter (fun r => keyOf r == K)).length
      = (rs.filter (fun r => keyOf r == K)).length :=
    (List.Perm.filter _ (sortRowsDesc_perm rs)).length_eq
  exact (hsub2.eq_of_length hlen.symm).symm

/-! ### Dict lemmas -/

theorem dictGet_dictSet_self (k : Str) (v : PyVal) (r : Record) :
    dictGet k (dictSet k v r) = some v := by
  induction r with
  | nil => simp [dictGet, dictSet]
  | cons p rest ih =>
    cases h : p.fst == k with
    | true => simp [dictSet, h, dictGet]
    | false => simp [dictSet, h, dictGet, ih]

theorem dictGet_dictSet_ne (k k' : Str) (v : PyVal) (r : Record) (h : (k' == k) = false) :
    dictGet k (dictSet k' v r) = dictGet k r := by
  induction r with
  | nil => simp [dictGet, dictSet, h]
  | cons p rest ih =>
    cases hp : p.fst == k' with
    | true =>
      have hpk : (p.fst == k) = false := by
        have := eq_of_beq hp
        rw [this]
        exact h
      simp [dictSet, hp, dictGet, hpk, h]
    | false => simp [dictSet, hp, dictGet, ih]

theorem dictGet_isSome_dictSet (k k' : Str) (v : PyVal) (r : Record)
    (h : (dictGet k r).isSome = true) : (dictGet k (dictSet k' v r)).isSome = true := by
  cases hk : (k' == k) with
  | true =>
    rw [eq_of_beq hk, dictGet_dictSet_self]
    rfl
  | false =>
    rw [dictGet_dictSet_ne k k' v r hk]
    exact h

/-! ### Folds building a DictReader record -/

theorem dictGet_foldl_set_not_mem (k : Str) (ps : List (Str × Str))
    (h : k ∉ ps.map Prod.fst) (d : Record) :
    dictGet k (ps.foldl (fun d p => dictSet p.fst (some p.snd) d) d) = dictGet k d := by
  induction ps generalizing d with
  | nil => rfl
  | cons p ps ih =>
    have hk : k ∉ ps.map Prod.fst := fun hm => h (List.mem_cons_of_mem _ hm)
    have hne : (p.fst == k) = false := by
      rw [beq_eq_false_iff_ne]
      intro he
      exact h (by rw [← he]; simp)
    rw [List.foldl_cons, ih hk, dictGet_dictSet_ne k p.fst _ d hne]

theorem dictGet_foldl_fill_not_mem (k : Str) (cs : List Str) (h : k ∉ cs) (d : Record) :
    dictGet k (cs.foldl (fun d c => dictSet c none d) d) = dictGet k d := by
  induction cs generalizing d with
  | nil => rfl
  | cons c cs ih =>
    have hk : k ∉ cs := fun hm => h (List.mem_cons_of_mem _ hm)
    have hne : (c == k) = false := by
      rw [beq_eq_false_iff_ne]
      intro he
      exact h (by rw [← he]; exact List.mem_cons_self _ _)
    rw [List.foldl_cons, ih hk, dictGet_dictSet_ne k c _ d hne]

theorem dictGet_isSome_foldl_set (k : Str) (ps : List (Str × Str)) (d : Record)
    (h : (dictGet k d).isSome = true) :
    (dictGet k (ps.foldl (fun d p => dictSet p.fst (some p.snd) d) d)).isSome = true := by
  induction ps generalizing d with
  | nil => exact h
  | cons p ps ih =>
    rw [List.foldl_cons]
    exact ih _ (dictGet_isSome_dictSet k p.fst _ d h)

theorem dictGet_isSome_foldl_fill (k : Str) (cs : List Str) (d : Record)
    (h : (dictGet k d).isSome = true) :
    (dictGet k (cs.foldl (fun d c => dictSet c none d) d)).isSome = true := by
  induction cs generalizing d with
  | nil => exact h
  | cons c cs ih =>
    rw [List.foldl_cons]
    exact ih _ (dictGet_isSome_dictSet k c _ d h)

theorem dictGet_isSome_foldl_set_mem (k : Str) (ps : List (Str × Str))
    (h : k ∈ ps.map Prod.fst) (d : Record) :
    (dictGet k (ps.foldl (fun d p => dictSet p.fst (some p.snd) d) d)).isSome = true := by
  induction ps generalizing d with
  | nil => simp at h
  | cons p ps ih =>
    rw [List.foldl_cons]
    rcases List.mem_cons.mp h with he | hm
    · by_cases hmem : k ∈ ps.map Prod.fst
      · exact ih hmem _
      · rw [dictGet_foldl_set_not_mem k ps hmem _]
        rw [he, dictGet_dictSet_self]
        rfl
    · exact ih hm _

theorem dictGet_isSome_foldl_fill_mem (k : Str) (cs : List Str) (h : k ∈ cs) (d : Record) :
    (dictGet k (cs.foldl (fun d c => dictSet c none d) d)).isSome = true := by
  induction cs generalizing d with
  | nil => simp at h
  | cons c cs ih =>
    rw [List.foldl_cons]
    rcases List.mem_cons.mp h with he | hm
    · by_cases hmem : k ∈ cs
      · exact ih hmem _
      · rw [dictGet_foldl_fill_not_mem k cs hmem _]
        rw [← he, dictGet_dictSet_self]
        rfl
    · exact ih hm _

theorem zip_fst_append_drop (cols row : List Str) :
    (cols.zip row).map Prod.fst ++ cols.drop row.length = cols := by
  induction cols generalizing row with
  | nil => simp
  | cons c cs ih =>
    cases row with
    | nil => simp
    | cons v vs =>
      simp only [List.zip_cons_cons, List.map_cons, List.length_cons, List.drop_succ_cons,
        List.cons_append]
      rw [ih vs]

theorem mkRecord_key_isSome (cols row : List Str) (k : Str) (hk : k ∈ cols) :
    (dictGet k (mkRecord cols row)).isSome = true := by
  rw [mkRecord]
  have hsplit := zip_fst_append_drop cols row
  rw [← hsplit] at hk
  rcases List.mem_append.mp hk with hm | hm
  · exact dictGet_isSome_foldl_fill k _ _ (dictGet_isSome_foldl_set_mem k _ hm [])
  · exact dictGet_isSome_foldl_fill_mem k _ hm _

theorem dictGet_foldl_fill_mem_nodup (k : Str) (cs : List Str) (hnd : cs.Nodup)
    (hk : k ∈ cs) (d : Record) :
    dictGet k (cs.foldl (fun d c => dictSet c none d) d) = some none := by
  induction cs generalizing d with
  | nil => simp at hk
  | cons c cs ih =>
    rw [List.foldl_cons]
    rcases List.mem_cons.mp hk with he | hm
    · have hnm : k ∉ cs := by
        rw [he]
        exact (List.nodup_cons.mp hnd).1
      rw [dictGet_foldl_fill_not_mem k cs hnm _, ← he, dictGet_dictSet_self]
    · exact ih (List.nodup_cons.mp hnd).2 hm _

theorem mkRecord_fill_none (cols row : List Str) (k : Str) (hnd : cols.Nodup)
    (hk : k ∈ cols.drop row.length) :
    dictGet k (mkRecord cols row) = some none := by
  rw [mkRecord]
  exact dictGet_foldl_fill_mem_nodup k _
    ((List.drop_sublist row.length cols).nodup hnd) hk _

theorem mkRecord_not_mem_none (cols row : List Str) (k : Str) (hk : k ∉ cols) :
    dictGet k (mkRecord cols row) = none := by
  rw [mkRecord]
  have h1 : k ∉ cols.drop row.length := fun hm => hk ((List.drop_sublist _ _).mem hm)
  have h2 : k ∉ (cols.zip row).map Prod.fst := by
    intro hm
    apply hk
    rw [← zip_fst_append_drop cols row]
    exact List.mem_append.mpr (Or.inl hm)
  rw [dictGet_foldl_fill_not_mem k _ h1 _, dictGet_foldl_set_not_mem k _ h2 []]
  rfl

/-! ### The schema error message names every relevant column -/

theorem intercalate_cons_cons (s x y : Str) (l : List Str) :
    List.intercalate s (x :: y :: l) = x ++ s ++ List.intercalate s (y :: l) := by
  simp [List.intercalate, List.intersperse]

theorem infix_intercalate_of_mem {c : Str} (s : Str) (xs : List Str) (h : c ∈ xs) :
    c <:+: List.intercalate s xs := by
  induction xs with
  | nil => simp at h
  | cons x t ih =>
    rcases List.mem_cons.mp h with he | hm
    · subst he
      cases t with
      | nil =>
        rw [show List.intercalate s [c] = c by simp [List.intercalate]]
      | cons y t2 =>
        rw [intercalate_cons_cons]
        exact infix_of_pre (by
          have : c ++ (s ++ List.intercalate s (y :: t2)) = c ++ s ++ List.intercalate s (y :: t2) := by
            simp [List.append_assoc]
          rw [← this]
          exact List.prefix_append c _)
    · cases t with
      | nil => simp at hm
      | cons y t2 =>
        rw [intercalate_cons_cons]
        have hrec := ih hm
        exact hrec.trans (infix_of_suf (by
          rw [List.append_assoc]
          exact (List.suffix_append s _).trans (List.suffix_append x _)))

theorem infix_pyQuote (c : Str) : c <:+: pyQuote c := by
  rw [pyQuote]
  exact ⟨[quoteCh], [quoteCh], rfl⟩

theorem infix_pyRepr_of_mem {c : Str} (xs : List Str) (h : c ∈ xs) :
    c <:+: pyReprStrList xs := by
  have h1 : pyQuote c ∈ xs.map pyQuote := List.mem_map_of_mem pyQuote h
  have h2 : pyQuote c <:+: List.intercalate (", ".toList) (xs.map pyQuote) :=
    infix_intercalate_of_mem _ _ h1
  have h3 : c <:+: List.intercalate (", ".toList) (xs.map pyQuote) :=
    (infix_pyQuote c).trans h2
  rw [pyReprStrList]
  exact h3.trans ⟨['['], [']'], by simp⟩

theorem containsSub_schemaErrMsg_missing {c : Str} (missing cols : List Str)
    (h : c ∈ missing) : containsSub c (schemaErrMsg missing cols) = true := by
  apply containsSub_infix_iff.mpr
  apply (infix_pyRepr_of_mem missing h).trans
  rw [schemaErrMsg]
  exact ⟨"CSV missing required columns: ".toList,
    (". Found: ".toList) ++ pyReprStrList cols, by simp [List.append_assoc]⟩

theorem containsSub_schemaErrMsg_cols {c : Str} (missing cols : List Str)
    (h : c ∈ cols) : containsSub c (schemaErrMsg missing cols) = true := by
  apply containsSub_infix_iff.mpr
  apply (infix_pyRepr_of_mem cols h).trans
  rw [schemaErrMsg]
  exact ⟨("CSV missing required columns: ".toList) ++ pyReprStrList missing
    ++ (". Found: ".toList), [], by simp [List.append_assoc]⟩

/-! ### Whitespace facts for date normalisation -/

theorem lstripW_append_space {w t : Str} (hw : w.all isPySpace = true) :
    lstripW (w ++ t) = lstripW t := by
  rw [lstripW, lstripW, List.dropWhile_append]
  have : w.dropWhile isPySpace = [] := List.dropWhile_eq_nil_iff.mpr (List.all_eq_true.mp hw)
  rw [this]
  rfl

theorem rstripW_append_space {w t : Str} (hw : w.all isPySpace = true) :
    rstripW (t ++ w) = rstripW t := by
  rw [rstripW, rstripW, List.reverse_append, List.dropWhile_append]
  have : w.reverse.dropWhile isPySpace = [] := by
    apply List.dropWhile_eq_nil_iff.mpr
    intro x hx
    exact List.all_eq_true.mp hw x (List.mem_reverse.mp hx)
  rw [this]
  rfl

theorem rstripW_append_cases (x y : Str) :
    rstripW (x ++ y) = if rstripW y = [] then rstripW x else x ++ rstripW y := by
  rw [rstripW, List.reverse_append, List.dropWhile_append]
  by_cases hy : y.reverse.dropWhile isPySpace = []
  · have hy2 : rstripW y = [] := by
      rw [rstripW, hy]
      rfl
    rw [if_pos hy2]
    simp [hy, rstripW]
  · have hy2 : ¬(rstripW y = []) := by
      rw [rstripW]
      simpa using hy
    rw [if_neg hy2]
    rw [show (y.reverse.dropWhile isPySpace).isEmpty = false by
      cases h : y.reverse.dropWhile isPySpace with
      | nil => exact absurd h hy
      | cons _ _ => rfl]
    simp [rstripW]

theorem all_space_lstripW {w : Str} (hw : w.all isPySpace = true) : lstripW w = [] := by
  rw [lstripW]
  exact List.dropWhile_eq_nil_iff.mpr (List.all_eq_true.mp hw)

theorem all_space_rstripW {w : Str} (hw : w.all isPySpace = true) : rstripW w = [] := by
  rw [rstripW]
  have : w.reverse.dropWhile isPySpace = [] := by
    apply List.dropWhile_eq_nil_iff.mpr
    intro x hx
    exact List.all_eq_true.mp hw x (List.mem_reverse.mp hx)
  rw [this]
  rfl

theorem rstripW_sublist (s : Str) : List.Sublist (rstripW s) s :=
  (rstripW_pre s).sublist

theorem rstripW_all_space {w : Str} (hw : w.all isPySpace = true) :
    (rstripW w).all isPySpace = true := by
  apply List.all_eq_true.mpr
  intro x hx
  exact List.all_eq_true.mp hw x ((rstripW_sublist w).mem hx)

theorem pyStrip_pad {w1 w2 s : Str} (h1 : w1.all isPySpace = true)
    (h2 : w2.all isPySpace = true) : pyStrip (w1 ++ s ++ w2) = pyStrip s := by
  rw [pyStrip, pyStrip]
  rw [List.append_assoc, show rstripW (w1 ++ (s ++ w2)) = rstripW (w1 ++ s) from by
    rw [← List.append_assoc]
    exact rstripW_append_space h2]
  rw [rstripW_append_cases w1 s]
  by_cases hs : rstripW s = []
  · rw [if_pos hs, hs]
    rw [all_space_lstripW (rstripW_all_space h1), lstripW]
    rfl
  · rw [if_neg hs]
    exact lstripW_append_space h1

theorem not_space_of_digit {c : Char} (h : c.isDigit = true) : isPySpace c = false := by
  simp only [Char.isDigit, Bool.and_eq_true, decide_eq_true_eq] at h
  simp only [isPySpace, Bool.or_eq_false_iff]
  refine ⟨⟨⟨⟨⟨?_, ?_⟩, ?_⟩, ?_⟩, ?_⟩, ?_⟩ <;>
    (rw [beq_eq_false_iff_ne]; rintro rfl) <;> revert h <;> decide

theorem pyStrip_eq_self {s : Str} (h : ∀ c ∈ s, isPySpace c = false) : pyStrip s = s := by
  have h1 : rstripW s = s := by
    rw [rstripW]
    have h2 : s.reverse.dropWhile isPySpace = s.reverse := by
      rw [List.dropWhile_eq_self_iff]
      intro hl hp
      have hm : s.reverse.get ⟨0, hl⟩ ∈ s := List.mem_reverse.mp (List.get_mem _ _ _)
      rw [h _ hm] at hp
      exact Bool.noConfusion hp
    rw [h2, List.reverse_reverse]
  rw [pyStrip, h1, lstripW, List.dropWhile_eq_self_iff]
  intro hl hp
  have hm : s.get ⟨0, hl⟩ ∈ s := List.get_mem _ _ _
  rw [h _ hm] at hp
  exact Bool.noConfusion hp

/-! ### Lexicographic walk for the sentinel sort key -/

theorem strLe_cons_eq (a : Char) (as bs : Str) : strLe (a :: as) (a :: bs) = strLe as bs := by
  simp only [strLe, if_neg (lt_irrefl a)]

theorem strLe_cons_lt {a b : Char} (h : a < b) (as bs : Str) :
    strLe (a :: as) (b :: bs) = true := by
  simp only [strLe, if_pos h]

theorem strLe_digit_step {c : Char} (h : ('0' : Char) ≤ c) (as bs : Str)
    (hrec : c = '0' → strLe as bs = true) : strLe ('0' :: as) (c :: bs) = true := by
  rcases lt_or_eq_of_le h with hlt | heq
  · exact strLe_cons_lt hlt as bs
  · rw [← heq, strLe_cons_eq]
    exact hrec heq.symm

theorem zero_le_of_digit {c : Char} (h : c.isDigit = true) : ('0' : Char) ≤ c := by
  simp only [Char.isDigit, Bool.and_eq_true, decide_eq_true_eq] at h
  exact h.1

theorem exists_four {l : Str} (h : l.length = 4) : ∃ a b c d, l = [a, b, c, d] := by
  rcases l with _ | ⟨a, _ | ⟨b, _ | ⟨c, _ | ⟨d, _ | ⟨e, t⟩⟩⟩⟩⟩ <;> simp at h
  exact ⟨a, b, c, d, rfl⟩

theorem exists_seven {l : Str} (h : l.length = 7) :
    ∃ a b c d e f g, l = [a, b, c, d, e, f, g] := by
  rcases l with _ | ⟨a, _ | ⟨b, _ | ⟨c, _ | ⟨d, _ | ⟨e, _ | ⟨f, _ | ⟨g, _ | ⟨x, t⟩⟩⟩⟩⟩⟩⟩⟩ <;>
    simp at h
  exact ⟨a, b, c, d, e, f, g, rfl⟩

/-! ### Joining lines -/

theorem intercalate_append_singleton (s y : Str) (xs : List Str) (h : xs ≠ []) :
    List.intercalate s (xs ++ [y]) = List.intercalate s xs ++ s ++ y := by
  induction xs with
  | nil => exact absurd rfl h
  | cons x t ih =>
    cases t with
    | nil => simp [List.intercalate, List.intersperse]
    | cons x2 t2 =>
      have : (x :: x2 :: t2) ++ [y] = x :: ((x2 :: t2) ++ [y]) := rfl
      rw [this, show (x2 :: t2) ++ [y] = x2 :: (t2 ++ [y]) from rfl]
      rw [intercalate_cons_cons, ← show (x2 :: t2) ++ [y] = x2 :: (t2 ++ [y]) from rfl]
      rw [ih (by simp), intercalate_cons_cons]
      simp [List.append_assoc]

theorem not_nlnl_suffix {p : Str} (h : p.getLast? ≠ some nl) :
    ([nl, nl].isSuffixOf p) = false := by
  cases hb : ([nl, nl].isSuffixOf p) with
  | false => rfl
  | true =>
    exfalso
    have hs : [nl, nl] <:+ p := List.isSuffixOf_iff_suffix.mp hb
    obtain ⟨w, hw⟩ := hs
    apply h
    rw [← hw, List.getLast?_append]
    rfl

/-! ### The claims -/

/-- C1: for a document that contains both sentinel lines (each once, start
before end), insert_between_markers replaces only the content strictly
between the sentinels: the text before the first sentinel and the text after
the second sentinel reappear byte-identically in the output, up to trimming
of trailing (resp. leading) blank padding at the splice boundary. -/
theorem claim_C1 (a b c block : Str)
    (h1 : containsSub START a = false) (h2 : containsSub END a = false)
    (h3 : containsSub END b = false) (h4 : containsSub END c = false) :
    insert_between_markers (a ++ START ++ b ++ END ++ c) block START END
      = rstripW a ++ markedSection block ++ lstripW c :=
  insert_both_eq a b c block h1 h2 h3 h4

theorem claim_C1_witness :
    insert_between_markers
        (("Intro\n".toList) ++ START ++ ("\nold\n".toList) ++ END ++ ("\nOutro".toList))
        ("B".toList) START END
      = ("Intro<!-- PROJECTS_TABLE:START -->\nB\n<!-- PROJECTS_TABLE:END -->Outro".toList) :=
  (claim_C1 ("Intro\n".toList) ("\nold\n".toList) ("\nOutro".toList) ("B".toList)
    (by decide) (by decide) (by decide) (by decide)).trans (by decide)

theorem claim_C2_counterexample :
    containsSub START ("abc\n".toList) = false
    ∧ containsSub END ("abc\n".toList) = false
    ∧ ("abc\n".toList ≠ ([] : Str))
    ∧ ([nl, nl].isSuffixOf ("abc\n".toList)) = false
    ∧ splitLinesNl (insert_between_markers ("abc\n".toList) ("B".toList) START END)
        = [("abc".toList), [], [], START, ("B".toList), END, []]
    ∧ insert_between_markers ("abc\n".toList) ("B".toList) START END
        ≠ rstripW ("abc\n".toList) ++ [nl, nl] ++ markedSection ("B".toList) ++ [nl] := by
  decide

/-- C2 (amended): when a sentinel is missing, insert_between_markers appends
a newly constructed marked section (start sentinel, newline, block, newline,
end sentinel) at the end of the document; and when the prior content is
non-empty and does not end in a newline character, exactly one blank line
separates the prior content from the appended section.  (A document that
already ends in a single newline receives two blank lines, so the guarantee
as originally stated fails there.) -/
theorem claim_C2 (p block : Str)
    (hmiss : containsSub START p = false ∨ containsSub END p = false) :
    (∃ pre : Str, insert_between_markers p block START END
        = pre ++ markedSection block ++ [nl])
    ∧ (p ≠ [] → p.getLast? ≠ some nl →
        insert_between_markers p block START END
          = p ++ [nl, nl] ++ markedSection block ++ [nl]) := by
  rw [insert_missing_eq p block hmiss]
  constructor
  · exact ⟨(if !p.isEmpty && !([nl, nl].isSuffixOf p) then p ++ [nl] else p) ++ [nl],
      by simp [List.append_assoc]⟩
  · intro hne hlast
    have hsuf := not_nlnl_suffix hlast
    have hemp : p.isEmpty = false := by
      cases p with
      | nil => exact absurd rfl hne
      | cons _ _ => rfl
    rw [hemp, hsuf]
    simp [List.append_assoc]

theorem claim_C2_witness :
    (containsSub START ("abc".toList) = false)
    ∧ insert_between_markers ("abc".toList) ("B".toList) START END
        = ("abc".toList) ++ [nl, nl] ++ markedSection ("B".toList) ++ [nl] :=
  ⟨by decide,
    (claim_C2 ("abc".toList) ("B".toList) (Or.inl (by decide))).2 (by decide) (by decide)⟩

theorem claim_C3_counterexample :
    (build_table [] ("2024-01-01 00:00 UTC".toList)).snd
        = tableHeader ++ [nl] ++ footerLine ("2024-01-01 00:00 UTC".toList)
    ∧ containsSub [nl, nl] ((build_table [] ("2024-01-01 00:00 UTC".toList)).snd) = false := by
  constructor <;>
    (simp only [build_table, List.map_nil, sortRowsDesc, List.mergeSort_nil]; decide)

/-- C3 (amended): the block produced by build_table ends with the table rows
followed by a single newline and then the italicized timestamp line; the
timestamp line is the last line of the block but is not separated from the
rows by a blank line (no empty line precedes it). -/
theorem claim_C3 (rows : List Record) (now : Str) :
    (build_table rows now).snd
      = List.intercalate [nl] (tableHeader :: (build_table rows now).fst.map renderRow)
        ++ [nl] ++ footerLine now := by
  have hsplit : tableHeader :: ((build_table rows now).fst.map renderRow ++ [footerLine now])
      = (tableHeader :: (build_table rows now).fst.map renderRow) ++ [footerLine now] := by
    simp
  show List.intercalate [nl]
      (tableHeader :: ((build_table rows now).fst.map renderRow ++ [footerLine now])) = _
  rw [hsplit, intercalate_append_singleton [nl] (footerLine now) _ (by simp)]

theorem claim_C4_counterexample :
    read_csv_rows
        [["Project".toList, "Date".toList, "Tools".toList, "Tags".toList,
          "Description".toList, "Link".toList],
         [("A".toList)]]
      = Except.ok [[(("Project".toList), some ("A".toList)), (("Date".toList), none),
          (("Tools".toList), none), (("Tags".toList), none),
          (("Description".toList), none), (("Link".toList), none)]]
    ∧ dictGet ("Date".toList)
        [(("Project".toList), some ("A".toList)), (("Date".toList), none),
         (("Tools".toList), none), (("Tags".toList), none),
         (("Description".toList), none), (("Link".toList), none)]
        = some none
    ∧ some (none : Option Str) ≠ some (some ([] : Str)) := by
  decide

/-- C4 (amended): when read_csv_rows succeeds, every record carries a binding
for every required field name; a field absent from that record's row is bound
to the Python value None (not to the empty string) by the DictReader restval
fill, and ragged rows are tolerated rather than rejected. -/
theorem claim_C4 (file : List (List Str)) (rs : List Record)
    (hok : read_csv_rows file = Except.ok rs) :
    (∀ r ∈ rs, ∀ c ∈ REQUIRED_COLS, (dictGet c r).isSome = true)
    ∧ ((file.headD []).Nodup →
        ∀ row ∈ file.drop 1, ∀ c ∈ (file.headD []).drop row.length,
          dictGet c (mkRecord (file.headD []) row) = some none) := by
  have hread : read_csv_rows file
      = (if (REQUIRED_COLS.filter (fun c => !((file.headD []).contains c))).isEmpty then
          Except.ok (((file.drop 1).filter (fun row => !row.isEmpty)).map
            (mkRecord (file.headD [])))
        else Except.error (schemaErrMsg
          (REQUIRED_COLS.filter (fun c => !((file.headD []).contains c))) (file.headD []))) :=
    rfl
  constructor
  · intro r hr c hc
    by_cases hm : (REQUIRED_COLS.filter (fun c => !((file.headD []).contains c))).isEmpty = true
    · rw [hread, if_pos hm] at hok
      have hrs : rs = ((file.drop 1).filter (fun row => !row.isEmpty)).map
          (mkRecord (file.headD [])) := by
        injection hok with h
        exact h.symm
      rw [hrs] at hr
      obtain ⟨row, _, rfl⟩ := List.mem_map.mp hr
      apply mkRecord_key_isSome
      have hmem : c ∈ REQUIRED_COLS.filter (fun c => !((file.headD []).contains c)) → False := by
        intro hcm
        have : REQUIRED_COLS.filter (fun c => !((file.headD []).contains c)) = [] := by
          cases hfe : REQUIRED_COLS.filter (fun c => !((file.headD []).contains c)) with
          | nil => rfl
          | cons _ _ =>
            rw [hfe] at hm
            exact Bool.noConfusion hm
        rw [this] at hcm
        simp at hcm
      cases hcon : (file.headD []).contains c with
      | true => exact List.elem_iff.mp hcon
      | false =>
        exact absurd (List.mem_filter.mpr ⟨hc, by rw [hcon]; rfl⟩) hmem
    · rw [hread, if_neg hm] at hok
      exact Except.noConfusion hok
  · intro hnd row _ c hc
    exact mkRecord_fill_none _ _ _ hnd hc

theorem claim_C4_witness :
    (dictGet ("Tags".toList)
        (mkRecord ["Project".toList, "Date".toList, "Tools".toList, "Tags".toList,
          "Description".toList, "Link".toList] [("A".toList)])).isSome = true
    ∧ dictGet ("Tools".toList)
        (mkRecord ["Project".toList, "Date".toList, "Tools".toList, "Tags".toList,
          "Description".toList, "Link".toList] [("A".toList)])
        = some none := by
  have h := claim_C4
    [["Project".toList, "Date".toList, "Tools".toList, "Tags".toList,
      "Description".toList, "Link".toList], [("A".toList)]]
    [mkRecord ["Project".toList, "Date".toList, "Tools".toList, "Tags".toList,
      "Description".toList, "Link".toList] [("A".toList)]]
    (by decide)
  exact ⟨h.1 _ (by simp) ("Tags".toList) (by decide),
    h.2 (by decide) [("A".toList)] (by simp) ("Tools".toList) (by decide)⟩

theorem claim_C5_counterexample :
    (insert_between_markers
        (insert_between_markers ("abc".toList) ("B".toList) START END)
        ("B".toList) START END
      ≠ insert_between_markers ("abc".toList) ("B".toList) START END)
    ∧ readme_changed (insert_between_markers ("abc".toList) ("B".toList) START END)
        ("B".toList) = true
    ∧ (insert_between_markers
        (insert_between_markers (START ++ [nl] ++ END) (END ++ [nl] ++ ("x".toList)) START END)
        (END ++ [nl] ++ ("x".toList)) START END
      ≠ insert_between_markers (START ++ [nl] ++ END) (END ++ [nl] ++ ("x".toList)) START END) := by
  refine ⟨by decide, by decide, by decide⟩

/-- C5 (amended): on a document that already contains both sentinels (once
each, in order) and for a block that does not contain the end sentinel,
splicing is idempotent: a second run computes exactly the text it read, so it
reports no changes and performs no write.  (A first run that had to append
the markers is not a fixpoint: the second run strips the padding around the
freshly appended section, so the original claim fails there.) -/
theorem claim_C5 (a b c block : Str)
    (h1 : containsSub START a = false) (h2 : containsSub END a = false)
    (h3 : containsSub END b = false) (h4 : containsSub END c = false)
    (hb : containsSub END block = false) :
    insert_between_markers
        (insert_between_markers (a ++ START ++ b ++ END ++ c) block START END)
        block START END
      = insert_between_markers (a ++ START ++ b ++ END ++ c) block START END
    ∧ readme_changed
        (insert_between_markers (a ++ START ++ b ++ END ++ c) block START END) block
      = false := by
  have hid := insert_idem_both a b c block h1 h2 h3 h4 hb
  refine ⟨hid, ?_⟩
  rw [readme_changed, hid]
  simp

theorem claim_C5_witness :
    insert_between_markers
        (insert_between_markers
          (("Intro\n".toList) ++ START ++ ("\nold\n".toList) ++ END ++ ("\nOutro".toList))
          ("B".toList) START END)
        ("B".toList) START END
      = insert_between_markers
          (("Intro\n".toList) ++ START ++ ("\nold\n".toList) ++ END ++ ("\nOutro".toList))
          ("B".toList) START END :=
  (claim_C5 ("Intro\n".toList) ("\nold\n".toList) ("\nOutro".toList) ("B".toList)
    (by decide) (by decide) (by decide) (by decide) (by decide)).1

/-- C6: the table built by build_table has exactly one row per input record
(the sorted list is a permutation of the key-augmented input, of the same
length), the rows appear in descending lexicographic order of the normalized
date sort key, and records with equal sort keys keep their original relative
input order (the sort is stable: filtering by any key value commutes with the
sort); the rendered text is the header followed by exactly these rows and the
footer. -/
theorem claim_C6 (rows : List Record) (now : Str) :
    ((build_table rows now).fst).Perm (rows.map addSortDate)
    ∧ ((build_table rows now).fst).length = rows.length
    ∧ ((build_table rows now).fst).Pairwise (fun r s => strLe (keyOf s) (keyOf r) = true)
    ∧ (∀ K : Str, ((build_table rows now).fst).filter (fun r => keyOf r == K)
        = (rows.map addSortDate).filter (fun r => keyOf r == K))
    ∧ (build_table rows now).snd
        = List.intercalate [nl]
            (tableHeader :: ((build_table rows now).fst.map renderRow ++ [footerLine now])) := by
  refine ⟨sortRowsDesc_perm _, ?_, sortRowsDesc_sorted _, fun K => sortRowsDesc_filter_key _ K, rfl⟩
  rw [show (build_table rows now).fst = sortRowsDesc (rows.map addSortDate) from rfl]
  rw [(sortRowsDesc_perm _).length_eq, List.length_map]

/-- C7: normalize_date_for_sort first trims whitespace; a 4-digit numeric
string YYYY maps to YYYY-12; a 7-character string of the form YYYY-MM (digits
at positions 0-3 and 5-6, a dash at position 4) is returned unchanged; every
other input, including the empty and malformed strings, maps to the sentinel
0000-00, and the sentinel compares less-or-equal to every produced key, so it
sorts after all valid keys in descending order. -/
theorem claim_C7 :
    (∀ s w1 w2 : Str, w1.all isPySpace = true → w2.all isPySpace = true →
        normalize_date_for_sort (some (w1 ++ s ++ w2)) = normalize_date_for_sort (some s))
    ∧ (∀ s : Str, s.length = 4 → s.all Char.isDigit = true →
        normalize_date_for_sort (some s) = s ++ ("-12".toList))
    ∧ (∀ s : Str, s.length = 7 → s.get? 4 = some '-' →
        (s.take 4).all Char.isDigit = true → ((s.drop 5).take 2).all Char.isDigit = true →
        normalize_date_for_sort (some s) = s)
    ∧ (∀ d0 : Option Str,
        ((pyStrip (pyOr d0)).length == 4 && (pyStrip (pyOr d0)).all Char.isDigit) = false →
        ((pyStrip (pyOr d0)).length == 7 && ((pyStrip (pyOr d0)).get? 4 == some '-')
          && ((pyStrip (pyOr d0)).take 4).all Char.isDigit
          && (((pyStrip (pyOr d0)).drop 5).take 2).all Char.isDigit) = false →
        normalize_date_for_sort d0 = ("0000-00".toList))
    ∧ (∀ d0 : Option Str, strLe ("0000-00".toList) (normalize_date_for_sort d0) = true) := by
  have hzero : ("0000-00".toList : Str) = ['0', '0', '0', '0', '-', '0', '0'] := rfl
  refine ⟨?_, ?_, ?_, ?_, ?_⟩
  · intro s w1 w2 h1 h2
    simp only [normalize_date_for_sort, pyOr]
    rw [pyStrip_pad h1 h2]
  · intro s hlen hdig
    have hns : pyStrip s = s :=
      pyStrip_eq_self (fun c hc => not_space_of_digit (List.all_eq_true.mp hdig c hc))
    simp only [normalize_date_for_sort, pyOr]
    rw [hns]
    have hg : (s.length == 4 && s.all Char.isDigit) = true := by
      rw [hlen, hdig]
      rfl
    rw [hg]
    simp
  · intro s hlen hget hd1 hd2
    obtain ⟨a, b, c, d, e, f, g, rfl⟩ := exists_seven hlen
    have he : e = '-' := by
      simpa using hget
    subst he
    simp only [List.take, List.drop, List.all_cons, List.all_nil, Bool.and_eq_true,
      Bool.and_true] at hd1 hd2
    have hns : pyStrip [a, b, c, d, '-', f, g] = [a, b, c, d, '-', f, g] := by
      apply pyStrip_eq_self
      intro x hx
      simp only [List.mem_cons, List.not_mem_nil, or_false] at hx
      rcases hx with rfl | rfl | rfl | rfl | rfl | rfl | rfl
      · exact not_space_of_digit hd1.1
      · exact not_space_of_digit hd1.2.1
      · exact not_space_of_digit hd1.2.2.1
      · exact not_space_of_digit hd1.2.2.2
      · decide
      · exact not_space_of_digit hd2.1
      · exact not_space_of_digit hd2.2
    simp only [normalize_date_for_sort, pyOr]
    rw [hns]
    have hg1 : (([a, b, c, d, '-', f, g] : Str).length == 4
        && ([a, b, c, d, '-', f, g] : Str).all Char.isDigit) = false := by
      simp
    have hg2 : (([a, b, c, d, '-', f, g] : Str).length == 7
        && (([a, b, c, d, '-', f, g] : Str).get? 4 == some '-')
        && (([a, b, c, d, '-', f, g] : Str).take 4).all Char.isDigit
        && ((([a, b, c, d, '-', f, g] : Str).drop 5).take 2).all Char.isDigit) = true := by
      simp only [List.take, List.drop, List.all_cons, List.all_nil, List.length_cons,
        List.length_nil, List.get?]
      rw [hd1.1, hd1.2.1, hd1.2.2.1, hd1.2.2.2, hd2.1, hd2.2]
      rfl
    rw [hg1, hg2]
    simp
  · intro d0 hg1 hg2
    simp only [normalize_date_for_sort]
    rw [hg1, hg2]
    simp
  · intro d0
    simp only [normalize_date_for_sort]
    generalize pyStrip (pyOr d0) = t
    split
    · rename_i hguard
      rw [Bool.and_eq_true] at hguard
      obtain ⟨a, b, c, d, rfl⟩ := exists_four (by simpa using hguard.1)
      simp only [List.all_cons, List.all_nil, Bool.and_eq_true, Bool.and_true] at hguard
      rw [hzero]
      show strLe ('0' :: ['0', '0', '0', '-', '0', '0'])
        (a :: ([b, c, d] ++ ("-12".toList))) = true
      refine strLe_digit_step (zero_le_of_digit hguard.2.1) _ _ (fun _ => ?_)
      refine strLe_digit_step (zero_le_of_digit hguard.2.2.1) _ _ (fun _ => ?_)
      refine strLe_digit_step (zero_le_of_digit hguard.2.2.2.1) _ _ (fun _ => ?_)
      refine strLe_digit_step (zero_le_of_digit hguard.2.2.2.2) _ _ (fun _ => ?_)
      decide
    · split
      · rename_i hguard
        simp only [Bool.and_eq_true] at hguard
        obtain ⟨a, b, c, d, e, f, g, rfl⟩ := exists_seven (by
          have h7 := hguard.1.1.1
          simpa using h7)
        have he : e = '-' := by
          have hdash := hguard.1.1.2
          simpa using hdash
        subst he
        have hd1 := hguard.1.2
        have hd2 := hguard.2
        simp only [List.take, List.drop, List.all_cons, List.all_nil, Bool.and_eq_true,
          Bool.and_true] at hd1 hd2
        rw [hzero]
        refine strLe_digit_step (zero_le_of_digit hd1.1) _ _ (fun _ => ?_)
        refine strLe_digit_step (zero_le_of_digit hd1.2.1) _ _ (fun _ => ?_)
        refine strLe_digit_step (zero_le_of_digit hd1.2.2.1) _ _ (fun _ => ?_)
        refine strLe_digit_step (zero_le_of_digit hd1.2.2.2) _ _ (fun _ => ?_)
        rw [show strLe ('-' :: ['0', '0']) ('-' :: [f, g]) = strLe ['0', '0'] [f, g] from
          strLe_cons_eq '-' _ _]
        refine strLe_digit_step (zero_le_of_digit hd2.1) _ _ (fun _ => ?_)
        refine strLe_digit_step (zero_le_of_digit hd2.2) _ _ (fun _ => ?_)
        rfl
      · rw [hzero]
        exact strLe_refl _

theorem claim_C7_witness :
    normalize_date_for_sort (some (" 2021 ".toList)) = normalize_date_for_sort (some ("2021".toList))
    ∧ normalize_date_for_sort (some ("2021".toList)) = ("2021".toList) ++ ("-12".toList)
    ∧ normalize_date_for_sort (some ("2021-03".toList)) = ("2021-03".toList)
    ∧ normalize_date_for_sort (some ("bad".toList)) = ("0000-00".toList)
    ∧ strLe ("0000-00".toList) (normalize_date_for_sort (some ("bad".toList))) = true := by
  refine ⟨?_, ?_, ?_, ?_, ?_⟩
  · exact claim_C7.1 ("2021".toList) (" ".toList) (" ".toList) (by decide) (by decide)
  · exact claim_C7.2.1 ("2021".toList) (by decide) (by decide)
  · exact claim_C7.2.2.1 ("2021-03".toList) (by decide) (by decide) (by decide) (by decide)
  · exact claim_C7.2.2.2.1 (some ("bad".toList)) (by decide) (by decide)
  · exact claim_C7.2.2.2.2 (some ("bad".toList))

theorem contains_mem_iff (l : List Str) (c : Str) : l.contains c = true ↔ c ∈ l := by
  simp [List.contains]

/-- C8: read_csv_rows fails with the schema error exactly when at least one
required field name is absent from the declared header field list, and the
error message names every missing field and lists every field name actually
found (each appears verbatim as a substring of the message). -/
theorem claim_C8 (file : List (List Str)) :
    ((∃ e, read_csv_rows file = Except.error e)
      ↔ ∃ c ∈ REQUIRED_COLS, c ∉ (file.headD []))
    ∧ (∀ e, read_csv_rows file = Except.error e →
        (∀ c ∈ REQUIRED_COLS, c ∉ (file.headD []) → containsSub c e = true)
        ∧ (∀ c ∈ (file.headD []), containsSub c e = true)) := by
  have hread : read_csv_rows file
      = (if (REQUIRED_COLS.filter (fun c => !((file.headD []).contains c))).isEmpty then
          Except.ok (((file.drop 1).filter (fun row => !row.isEmpty)).map
            (mkRecord (file.headD [])))
        else Except.error (schemaErrMsg
          (REQUIRED_COLS.filter (fun c => !((file.headD []).contains c))) (file.headD []))) :=
    rfl
  have hmem_iff : ∀ c : Str,
      c ∈ REQUIRED_COLS.filter (fun c => !((file.headD []).contains c))
        ↔ (c ∈ REQUIRED_COLS ∧ c ∉ (file.headD [])) := by
    intro c
    rw [List.mem_filter]
    constructor
    · rintro ⟨hcR, hcf⟩
      refine ⟨hcR, fun hmem => ?_⟩
      rw [(contains_mem_iff _ _).mpr hmem] at hcf
      exact Bool.noConfusion hcf
    · rintro ⟨hcR, hcn⟩
      refine ⟨hcR, ?_⟩
      cases hcon : (file.headD []).contains c with
      | true => exact absurd ((contains_mem_iff _ _).mp hcon) hcn
      | false => rfl
  by_cases hm : (REQUIRED_COLS.filter (fun c => !((file.headD []).contains c))).isEmpty = true
  · have hnil : REQUIRED_COLS.filter (fun c => !((file.headD []).contains c)) = [] := by
      cases hfe : REQUIRED_COLS.filter (fun c => !((file.headD []).contains c)) with
      | nil => rfl
      | cons _ _ =>
        rw [hfe] at hm
        exact Bool.noConfusion hm
    constructor
    · constructor
      · rintro ⟨e, he⟩
        rw [hread, if_pos hm] at he
        exact Except.noConfusion he
      · rintro ⟨c, hcR, hcN⟩
        have : c ∈ REQUIRED_COLS.filter (fun c => !((file.headD []).contains c)) :=
          (hmem_iff c).mpr ⟨hcR, hcN⟩
        rw [hnil] at this
        simp at this
    · intro e he
      rw [hread, if_pos hm] at he
      exact Except.noConfusion he
  · have hm2 : (REQUIRED_COLS.filter (fun c => !((file.headD []).contains c))).isEmpty
        = false := by
      cases h : (REQUIRED_COLS.filter (fun c => !((file.headD []).contains c))).isEmpty with
      | false => rfl
      | true => exact absurd h hm
    have hne : REQUIRED_COLS.filter (fun c => !((file.headD []).contains c)) ≠ [] := by
      intro h
      rw [h] at hm2
      exact Bool.noConfusion hm2
    constructor
    · constructor
      · intro _
        obtain ⟨c, hc⟩ := List.exists_mem_of_ne_nil _ hne
        obtain ⟨hcR, hcN⟩ := (hmem_iff c).mp hc
        exact ⟨c, hcR, hcN⟩
      · intro _
        exact ⟨_, by rw [hread, if_neg (by rw [hm2]; exact Bool.noConfusion)]⟩
    · intro e he
      rw [hread, if_neg (by rw [hm2]; exact Bool.noConfusion)] at he
      have hemsg : e = schemaErrMsg
          (REQUIRED_COLS.filter (fun c => !((file.headD []).contains c))) (file.headD []) := by
        injection he with h
        exact h.symm
      rw [hemsg]
      constructor
      · intro c hcR hcN
        exact containsSub_schemaErrMsg_missing _ _ ((hmem_iff c).mpr ⟨hcR, hcN⟩)
      · intro c hc
        exact containsSub_schemaErrMsg_cols _ _ hc

theorem claim_C8_witness :
    ∃ e, read_csv_rows
        [["Project".toList, "Date".toList, "Tools".toList, "Description".toList,
          "Link".toList]]
      = Except.error e ∧ containsSub ("Tags".toList) e = true := by
  have h := claim_C8
    [["Project".toList, "Date".toList, "Tools".toList, "Description".toList, "Link".toList]]
  obtain ⟨e, he⟩ := (h.1).mpr ⟨"Tags".toList, by decide, by decide⟩
  exact ⟨e, he, ((h.2) e he).1 ("Tags".toList) (by decide) (by decide)⟩

theorem claim_C9_counterexample :
    countOcc START ([] : Str) = 0
    ∧ countOcc END ([] : Str) = 0
    ∧ countOcc START (insert_between_markers [] START START END) = 2
    ∧ countOcc END (insert_between_markers [] END START END) = 2
    ∧ countOcc END (insert_between_markers END ("B".toList) START END) = 2 := by
  refine ⟨by decide, by decide, by decide, by decide, by decide⟩

/-- C9 (amended): for a document that either contains both sentinels (once
each, start before end) or contains neither, and for a block that contains
neither sentinel, the output of insert_between_markers contains exactly one
occurrence of the start sentinel and exactly one of the end sentinel, and the
same holds after a second splice — in particular an append-then-splice cycle
starting from a document with no sentinels never duplicates sentinels.  (A
block containing a sentinel, or a document carrying only one of the two
sentinels, is re-appended and does duplicate sentinels, so the original
unrestricted claim fails.) -/
theorem claim_C9 (t block : Str)
    (hb1 : containsSub START block = false) (hb2 : containsSub END block = false)
    (hdoc : (∃ a b c, t = a ++ START ++ b ++ END ++ c
        ∧ containsSub START a = false ∧ containsSub END a = false
        ∧ containsSub START b = false ∧ containsSub END b = false
        ∧ containsSub START c = false ∧ containsSub END c = false)
      ∨ (containsSub START t = false ∧ containsSub END t = false)) :
    countOcc START (insert_between_markers t block START END) = 1
    ∧ countOcc END (insert_between_markers t block START END) = 1
    ∧ countOcc START (insert_between_markers
        (insert_between_markers t block START END) block START END) = 1
    ∧ countOcc END (insert_between_markers
        (insert_between_markers t block START END) block START END) = 1 := by
  rcases hdoc with ⟨a, b, c, rfl, ha1, ha2, hbS, hbE, hc1, hc2⟩ | ⟨h1, h2⟩
  · have hout := insert_both_eq a b c block ha1 ha2 hbE hc2
    have hidem := insert_idem_both a b c block ha1 ha2 hbE hc2 hb2
    have hS : countOcc START (rstripW a ++ markedSection block ++ lstripW c) = 1 :=
      countOcc_splice_START _ _ _ (containsSub_false_rstrip ha1) hb1
        (containsSub_false_lstrip hc1)
    have hE : countOcc END (rstripW a ++ markedSection block ++ lstripW c) = 1 :=
      countOcc_splice_END _ _ _ (containsSub_false_rstrip ha2) hb2
        (containsSub_false_lstrip hc2)
    refine ⟨by rw [hout]; exact hS, by rw [hout]; exact hE, ?_, ?_⟩
    · rw [hidem, hout]
      exact hS
    · rw [hidem, hout]
      exact hE
  · have hout := insert_missing_eq t block (Or.inl h1)
    have hpad1 : containsSub START
        (if !t.isEmpty && !([nl, nl].isSuffixOf t) then t ++ [nl] else t) = false := by
      split
      · exact containsSub_append_false t [nl] (by decide) h1 (by decide)
          (straddleFree_of_head t nl rfl (by decide))
      · exact h1
    have hpad2 : containsSub END
        (if !t.isEmpty && !([nl, nl].isSuffixOf t) then t ++ [nl] else t) = false := by
      split
      · exact containsSub_append_false t [nl] (by decide) h2 (by decide)
          (straddleFree_of_head t nl rfl (by decide))
      · exact h2
    have hA1 : containsSub START
        ((if !t.isEmpty && !([nl, nl].isSuffixOf t) then t ++ [nl] else t) ++ [nl]) = false :=
      containsSub_append_false _ [nl] (by decide) hpad1 (by decide)
        (straddleFree_of_head _ nl rfl (by decide))
    have hA2 : containsSub END
        ((if !t.isEmpty && !([nl, nl].isSuffixOf t) then t ++ [nl] else t) ++ [nl]) = false :=
      containsSub_append_false _ [nl] (by decide) hpad2 (by decide)
        (straddleFree_of_head _ nl rfl (by decide))
    have h1S : countOcc START (insert_between_markers t block START END) = 1 := by
      rw [hout]
      exact countOcc_splice_START _ block [nl] hA1 hb1 (by decide)
    have h1E : countOcc END (insert_between_markers t block START END) = 1 := by
      rw [hout]
      exact countOcc_splice_END _ block [nl] hA2 hb2 (by decide)
    have hshape : (if !t.isEmpty && !([nl, nl].isSuffixOf t) then t ++ [nl] else t)
          ++ [nl] ++ markedSection block ++ [nl]
        = ((if !t.isEmpty && !([nl, nl].isSuffixOf t) then t ++ [nl] else t) ++ [nl])
          ++ START ++ ([nl] ++ block ++ [nl]) ++ END ++ [nl] := by
      simp [markedSection, List.append_assoc]
    have hout2 := insert_both_eq
      ((if !t.isEmpty && !([nl, nl].isSuffixOf t) then t ++ [nl] else t) ++ [nl])
      ([nl] ++ block ++ [nl]) [nl] block hA1 hA2 (contains_middle_false hb2) (by decide)
    have h2S : countOcc START (insert_between_markers
        (insert_between_markers t block START END) block START END) = 1 := by
      rw [hout, hshape, hout2]
      exact countOcc_splice_START _ block _ (containsSub_false_rstrip hA1) hb1 (by decide)
    have h2E : countOcc END (insert_between_markers
        (insert_between_markers t block START END) block START END) = 1 := by
      rw [hout, hshape, hout2]
      exact countOcc_splice_END _ block _ (containsSub_false_rstrip hA2) hb2 (by decide)
    exact ⟨h1S, h1E, h2S, h2E⟩

theorem claim_C9_witness :
    countOcc START (insert_between_markers ("Notes\n".toList) ("B".toList) START END) = 1
    ∧ countOcc END (insert_between_markers
        (insert_between_markers ("Notes\n".toList) ("B".toList) START END)
        ("B".toList) START END) = 1 := by
  have h := claim_C9 ("Notes\n".toList) ("B".toList) (by decide) (by decide)
    (Or.inr ⟨by decide, by decide⟩)
  exact ⟨h.1, h.2.2.2⟩

/-- C10: build_table mutates its argument: the caller's list ends up equal to
the stable descending sort of the key-augmented records, every record in the
post-call list carries a "_sort_date" binding holding the normalized Date,
and a record loaded from a CSV whose header does not declare a "_sort_date"
column has no such binding beforehand. -/
theorem claim_C10 (rows : List Record) (now : Str)
    (hfresh : ∀ r ∈ rows, dictGet sortKeyName r = none) :
    (∀ r ∈ rows, dictGet sortKeyName r = none)
    ∧ (build_table rows now).fst = sortRowsDesc (rows.map addSortDate)
    ∧ (∀ r ∈ (build_table rows now).fst,
        dictGet sortKeyName r
          = some (some (normalize_date_for_sort (dictGetD ("Date".toList) r (some [])))))
    ∧ (∀ cols row, (cols.contains sortKeyName) = false →
        dictGet sortKeyName (mkRecord cols row) = none) := by
  refine ⟨hfresh, rfl, ?_, ?_⟩
  · intro r hr
    have hr2 : r ∈ rows.map addSortDate :=
      List.mem_mergeSort.mp (show r ∈ sortRowsDesc (rows.map addSortDate) from hr)
    obtain ⟨r0, _, rfl⟩ := List.mem_map.mp hr2
    have hD : dictGet ("Date".toList) (addSortDate r0) = dictGet ("Date".toList) r0 := by
      rw [addSortDate]
      exact dictGet_dictSet_ne _ _ _ _ (by decide)
    rw [show dictGetD ("Date".toList) (addSortDate r0) (some [])
        = dictGetD ("Date".toList) r0 (some []) from by rw [dictGetD, dictGetD, hD]]
    rw [addSortDate, dictGet_dictSet_self]
  · intro cols row hc
    apply mkRecord_not_mem_none
    intro hmem
    rw [(contains_mem_iff _ _).mpr hmem] at hc
    exact Bool.noConfusion hc

theorem claim_C10_witness :
    (build_table [[(("Date".toList), some ("2022".toList))]] ("TS".toList)).fst
      = sortRowsDesc ([[(("Date".toList), some ("2022".toList))]].map addSortDate)
    ∧ dictGet sortKeyName (mkRecord [("Project".toList)] []) = none :=
  ⟨(claim_C10 [[(("Date".toList), some ("2022".toList))]] ("TS".toList) (by decide)).2.1,
    (claim_C10 [[(("Date".toList), some ("2022".toList))]] ("TS".toList) (by decide)).2.2.2
      [("Project".toList)] [] (by decide)⟩

theorem claim_C3_witness :
    (build_table [] ("2024-01-01 00:00 UTC".toList)).snd
      = List.intercalate [nl]
          (tableHeader :: (build_table [] ("2024-01-01 00:00 UTC".toList)).fst.map renderRow)
        ++ [nl] ++ footerLine ("2024-01-01 00:00 UTC".toList) :=
  claim_C3 [] ("2024-01-01 00:00 UTC".toList)

theorem claim_C6_witness :
    ((build_table [[(("Date".toList), some ("2022".toList))],
        [(("Date".toList), some ("2023-05".toList))]] ("TS".toList)).fst).Perm
      ([[(("Date".toList), some ("2022".toList))],
        [(("Date".toList), some ("2023-05".toList))]].map addSortDate)
    ∧ ((build_table [[(("Date".toList), some ("2022".toList))],
        [(("Date".toList), some ("2023-05".toList))]] ("TS".toList)).fst).length = 2 :=
  ⟨(claim_C6 [[(("Date".toList), some ("2022".toList))],
      [(("Date".toList), some ("2023-05".toList))]] ("TS".toList)).1,
    (claim_C6 [[(("Date".toList), some ("2022".toList))],
      [(("Date".toList), some ("2023-05".toList))]] ("TS".toList)).2.1⟩

end UpdateReadme
